import Mathlib

/-!
Verification of the vsss-rs core (Shamir / Feldman / Pedersen verifiable
secret sharing) against its natural-language specification.

The development is a shallow embedding of the Rust sources:
  * `src/no_std/verifier/feldman.rs` — `FeldmanVerifier::verify`
  * `src/no_std/pedersen.rs`        — `Pedersen::split_secret`, `PedersenResult`
  * `src/standard.rs`               — the serde serializers / deserializers

The prime field `F` and companion group `G` are external backend capabilities
(spec section 6); they are embedded as an arbitrary commutative ring `F`
acting on an additive commutative group `G` through a `Module`, together with
a `Codec` bundling the backend's canonical byte encoding. Concrete instances
over `ZMod 5` are provided for evaluation witnesses.
-/

namespace Vsss

/-- Modelled from the spec (section 6, backend contract): the backend's
canonical byte encoding of a field or group element. `toRepr` is
`to_repr` / `to_bytes`, `fromRepr` is the canonical decoding that rejects
non-canonical inputs (`from_repr` / `from_bytes`, also `bytes_to_field` /
`bytes_to_group` of `util.rs`, which is not under `src/`). `round_trip` is
the canonicity law: decoding the canonical bytes of `x` yields `x`. -/
structure Codec (α : Type) where
  byteLen : Nat
  toRepr : α → List Nat
  fromRepr : List Nat → Option α
  round_trip : ∀ x, fromRepr (toRepr x) = some x

/-- Modelled from the spec (sections 3 and 4.A): the share container of
`share.rs` (not under `src/`), a 1-byte identifier followed by the S-byte
value payload. `identifier` is `share.identifier()` (byte 0), `value` is
`share.value()` (the payload slice). -/
structure Share where
  identifier : Nat
  value : List Nat
deriving DecidableEq

/-- `FeldmanVerifier` of `src/no_std/verifier/feldman.rs`: the generator `g`
for the share polynomial coefficients and the `T` commitments. The Rust
`PhantomData` marker field carries no data and is omitted. -/
structure FeldmanVerifier (G : Type) where
  generator : G
  commitments : List G
deriving DecidableEq

/-- Modelled from the spec (section 4.F) and the construction site in
`src/no_std/pedersen.rs` lines 156-164: the blinding generator `h`, the `T`
Pedersen commitments, and the embedded Feldman verifier (the struct itself
is declared in `verifier/pedersen.rs`, not under `src/`). -/
structure PedersenVerifier (G : Type) where
  generator : G
  commitments : List G
  feldman_verifier : FeldmanVerifier G
deriving DecidableEq

/-- `PedersenResult` of `src/no_std/pedersen.rs` lines 22-51. -/
structure PedersenResult (F G : Type) where
  blinding : F
  blind_shares : List Share
  secret_shares : List Share
  verifier : PedersenVerifier G
deriving DecidableEq

/-- Modelled from the spec (section 7): the error taxonomy of the crate's
`Error` type (declared outside `src/`). -/
inductive VsssError
  | invalidParameters
  | invalidShare
  | duplicateShare
  | sharingMinThreshold
  | invalidEncoding
  | invalidRng
deriving DecidableEq

section AlgebraDefs

variable {F G : Type} [CommRing F] [AddCommGroup G] [Module F G]

/-- Evaluation of a coefficient list `a_0, a_1, ...` at `x`:
`a_0 + a_1 x + a_2 x^2 + ...` (spec section 3, Polynomial). -/
def evalPoly (x : F) : List F → F
  | [] => 0
  | a :: as => a + x * evalPoly x as

/-- The sum `c_0 + c_1 x + c_2 x^2 + ...` in the group, with `x`-powers as
scalars: the right-hand side of the Feldman and Pedersen checks written as a
polynomial evaluation with group coefficients. -/
def groupPolyEval (x : F) : List G → G
  | [] => 0
  | c :: cs => c + x • groupPolyEval x cs

/-- The commitment accumulation loop of `FeldmanVerifier::verify`
(`src/no_std/verifier/feldman.rs` lines 51-56): for each commitment `c` after
the first, the scalar `i` is first multiplied by `x` and the updated `i • c`
is added to `rhs`. -/
def feldmanRhsAux (x : F) : List G → F → G → G
  | [], _, rhs => rhs
  | c :: cs, i, rhs => feldmanRhsAux x cs (i * x) (rhs + (i * x) • c)

end AlgebraDefs

section VerifyDefs

variable {F G : Type} [CommRing F] [AddCommGroup G] [Module F G] [DecidableEq G]

/-- `FeldmanVerifier::verify` (`src/no_std/verifier/feldman.rs` lines 32-63),
translated line by line: decode the share value (`bytes_to_field`), returning
`false` on failure; lift the identifier byte into `F`; start `i` at one and
`rhs` at `commitments[0]`; fold the remaining commitments with
`i *= x; rhs += c * i`; set `lhs = (-generator) * s`; accept when `lhs + rhs`
is the group identity. The `[]` commitment branch is unreachable for the Rust
type `[G; T]` with `T ≥ 1`; indexing `commitments[0]` there would panic. -/
def FeldmanVerifier.verify (codec : Codec F) (v : FeldmanVerifier G)
    (share : Share) : Bool :=
  match codec.fromRepr share.value with
  | none => false
  | some s =>
    match v.commitments with
    | [] => false
    | c0 :: rest =>
      let x : F := (share.identifier : F)
      let rhs := feldmanRhsAux x rest 1 c0
      let lhs : G := s • (-v.generator)
      decide (lhs + rhs = 0)

/-- Modelled from the spec (section 4.F): `PedersenVerifier::verify`
(declared in `verifier/pedersen.rs`, not under `src/`). Requires equal
identifiers, decodes both values, and accepts iff
`g·y_s + h·y_b = p_0 + Σ p_i x^i`, where `g` is the embedded Feldman
generator and `h` the Pedersen generator. -/
def PedersenVerifier.verify (codec : Codec F) (v : PedersenVerifier G)
    (secret_share blind_share : Share) : Bool :=
  if secret_share.identifier = blind_share.identifier then
    match codec.fromRepr secret_share.value, codec.fromRepr blind_share.value with
    | some ys, some yb =>
      let x : F := (secret_share.identifier : F)
      decide (ys • v.feldman_verifier.generator + yb • v.generator
        = groupPolyEval x v.commitments)
    | _, _ => false
  else false

end VerifyDefs

section DealerDefs

variable {F G : Type} [CommRing F] [AddCommGroup G] [Module F G]

/-- Modelled from the spec (section 4.C): `Shamir::check_params` (the Shamir
core is not under `src/`). Fails with `InvalidParameters` when `T < 2`,
`N < T`, `N > 255` or `S = 0`. -/
def check_params (T N S : Nat) : Except VsssError Unit :=
  if T < 2 ∨ N < T ∨ 255 < N ∨ S = 0 then .error .invalidParameters
  else .ok ()

/-- The 32-byte seed `split_secret` fills from the caller-supplied RNG
(`src/no_std/pedersen.rs` lines 129-130); the external RNG is embedded as
the byte stream it would produce. -/
def seedOf (rng : Nat → Nat) : List Nat := (List.range 32).map rng

/-- The scalar `t` drawn first from the deterministic stream
(`src/no_std/pedersen.rs` line 134). The seeded ChaCha stream RNG is an
external backend capability; it is embedded as the function
`chacha : seed → draw index → F`, the sequence of `F::random` outputs it
determines. -/
def tOf (chacha : List Nat → Nat → F) (rng : Nat → Nat) : F :=
  chacha (seedOf rng) 0

/-- The blinding factor: supplied, or the next fresh scalar from the stream
(`src/no_std/pedersen.rs` line 137; the draw happens only when absent). -/
def blindingOf (chacha : List Nat → Nat → F) (blinding : Option F)
    (rng : Nat → Nat) : F :=
  blinding.getD (chacha (seedOf rng) 1)

/-- Index of the first stream draw consumed by the secret polynomial: draw 0
is `t`; draw 1 is the blinding factor only when none was supplied. -/
def polyStart (blinding : Option F) : Nat :=
  match blinding with
  | some _ => 1
  | none => 2

/-- Modelled from the spec (sections 3 and 4.B): the polynomial built by
`Shamir::get_shares_and_polynomial` (not under `src/`) — constant term
`secret`, then `T - 1` fresh random coefficients drawn in order from the
stream starting at draw index `k`. -/
def polyCoeffs (T : Nat) (chacha : List Nat → Nat → F) (rng : Nat → Nat)
    (k : Nat) (secret : F) : List F :=
  secret :: (List.range (T - 1)).map (fun j => chacha (seedOf rng) (k + j))

/-- The secret polynomial `P` of `split_secret`
(`src/no_std/pedersen.rs` lines 138-139). -/
def pCoeffsOf (T : Nat) (chacha : List Nat → Nat → F) (blinding : Option F)
    (rng : Nat → Nat) (secret : F) : List F :=
  polyCoeffs T chacha rng (polyStart blinding) secret

/-- The blinding polynomial `Q` of `split_secret`
(`src/no_std/pedersen.rs` lines 140-141): its constant term is the blinding
factor and its random coefficients follow those of `P` in the stream. -/
def qCoeffsOf (T : Nat) (chacha : List Nat → Nat → F) (blinding : Option F)
    (rng : Nat → Nat) : List F :=
  polyCoeffs T chacha rng (polyStart blinding + (T - 1))
    (blindingOf chacha blinding rng)

/-- Modelled from the spec (section 4.C): the shares emitted by
`Shamir::get_shares_and_polynomial` (not under `src/`) — the polynomial is
evaluated at `x = 1, 2, ..., N`, identifiers are assigned in increasing
order starting from 1, and the canonical byte encoding of the evaluation
fills the share's value field. -/
def sharesOf (N : Nat) (codec : Codec F) (coeffs : List F) : List Share :=
  (List.range N).map
    (fun k => ⟨k + 1, codec.toRepr (evalPoly ((k + 1 : Nat) : F) coeffs)⟩)

/-- `Pedersen::split_secret` (`src/no_std/pedersen.rs` lines 115-166),
translated step by step: validate the parameters; seed the deterministic
stream from 32 RNG bytes; `g` is the supplied share generator or the
canonical generator `gen`; `t` is the first stream scalar and `h` the
supplied blinding generator or `G::generator() * t` (note: the canonical
generator, not `g`); the blinding factor is supplied or freshly drawn; the
two Shamir splits produce `P`, `Q` and their shares; the commitment loop
sets `feldman_commitments[i] = g * P.a_i` and
`pedersen_commitments[i] = g * P.a_i + h * Q.a_i`. -/
def split_secret (T N : Nat) (codec : Codec F) (gen : G)
    (chacha : List Nat → Nat → F) (secret : F) (blinding : Option F)
    (share_generator blind_factor_generator : Option G)
    (rng : Nat → Nat) : Except VsssError (PedersenResult F G) :=
  match check_params T N codec.byteLen with
  | .error e => .error e
  | .ok _ =>
    let g := share_generator.getD gen
    let t : F := tOf chacha rng
    let h := blind_factor_generator.getD (t • gen)
    let pCoeffs := pCoeffsOf T chacha blinding rng secret
    let qCoeffs := qCoeffsOf T chacha blinding rng
    let feldman_commitments := pCoeffs.map (fun a => a • g)
    let pedersen_commitments :=
      List.zipWith (fun a b => a • g + b • h) pCoeffs qCoeffs
    .ok
      { blinding := blindingOf chacha blinding rng
        blind_shares := sharesOf N codec qCoeffs
        secret_shares := sharesOf N codec pCoeffs
        verifier :=
          { generator := h
            commitments := pedersen_commitments
            feldman_verifier :=
              { generator := g
                commitments := feldman_commitments } } }

end DealerDefs

section SerializationDefs

variable {F G : Type}

/-- Modelled from the external `uint_zigzag` crate consumed by
`src/standard.rs`: the maximum byte length of the varint encoding of a
`u128` (19 groups of 7 bits). -/
def uintMaxBytes : Nat := 19

/-- Fuel-bounded worker for the varint encoding (7-bit little-endian groups,
high bit marks continuation). -/
def uintToVecAux : Nat → Nat → List Nat
  | 0, _ => []
  | fuel + 1, n => if n < 128 then [n] else (n % 128 + 128) :: uintToVecAux fuel (n / 128)

/-- Modelled from the spec (section 4.G) and the external `uint_zigzag`
crate: `Uint::to_vec`, the variable-length prefix encoding of a length. -/
def uintToVec (n : Nat) : List Nat := uintToVecAux uintMaxBytes n

/-- Modelled from the external `uint_zigzag` crate: `Uint::peek`, the byte
length of the varint starting at the head of the buffer (position of the
first byte without the continuation bit, within the maximum width). -/
def uintPeekAux : List Nat → Nat → Option Nat
  | [], _ => none
  | b :: rest, k =>
    if uintMaxBytes ≤ k then none
    else if b < 128 then some (k + 1)
    else uintPeekAux rest (k + 1)

/-- `Uint::peek` applied to the whole buffer. -/
def uintPeek (l : List Nat) : Option Nat := uintPeekAux l 0

/-- Modelled from the external `uint_zigzag` crate: `Uint::try_from` on the
exact varint slice — every byte but the last carries the continuation bit. -/
def uintFromBytes : List Nat → Option Nat
  | [] => none
  | [b] => if b < 128 then some b else none
  | b :: rest =>
    if b < 128 then none
    else (uintFromBytes rest).map (fun v => b - 128 + 128 * v)

/-- The claimed binary wire format of a variable-length element sequence
(spec section 4.G): varint length prefix followed by the elements' canonical
bytes concatenated. -/
def vecWireFormat (codec : Codec F) (f : List F) : List Nat :=
  uintToVec f.length ++ (f.map codec.toRepr).flatten

/-- `serialize_field_vec` / `serialize_group_vec` in the binary
(non-human-readable) branch (`src/standard.rs` lines 35-54 and 56-75): a
serde sequence of `f.len()` elements is begun, the varint-prefixed
`output` buffer is built — and then dropped without ever being passed to
`serialize_element` — and the sequence is ended with zero elements
serialized. The serde binary serializer is embedded as its emitted bytes:
`seqHeader n` for beginning a sequence of `n` elements, one `List Nat` per
serialized element, concatenated. -/
def serialize_vec_binary (codec : Codec F) (seqHeader : Nat → List Nat)
    (f : List F) : List Nat :=
  let _output := uintToVec f.length ++ (f.map codec.toRepr).flatten
  seqHeader f.length ++ List.flatten ([] : List (List Nat))

/-- Error outcomes of a serde deserializer, as used by `src/standard.rs`:
`invalidValue` and `invalidLength` are `de::Error::invalid_value` /
`invalid_length`, `custom` is `de::Error::custom`, and `panicked` marks a
Rust out-of-bounds slice access (not an error return in the source). -/
inductive DeError
  | invalidValue
  | invalidLength
  | custom
  | panicked
deriving DecidableEq

/-- The first loop of the binary `visit_seq` of `deserialize_field_vec` /
`deserialize_group_vec` (`src/standard.rs` lines 183-190 and 256-263),
translated faithfully: each sequence byte is written to `buffer[i]`, and the
loop breaks when `i` equals `Uint::MAX_BYTES` — but `i` is never
incremented, so every byte lands in `buffer[0]` and the break never fires:
the loop consumes the entire remaining sequence. Returns the buffer and the
unread remainder of the sequence. -/
def vecDecodeLoop1 : List Nat → List Nat → Nat → List Nat × List Nat
  | [], buffer, _ => (buffer, [])
  | b :: rest, buffer, i =>
    let buffer' := buffer.set i b
    if i = uintMaxBytes then (buffer', rest)
    else vecDecodeLoop1 rest buffer' i

/-- The element-reading loop of the binary `visit_seq`
(`src/standard.rs` lines 204-218 and 277-291): each byte is written to
`repr[i]`; when `i` reaches the representation length the element is decoded
and pushed and the loop breaks once `fields` elements are read; then the
count is checked. Writing `repr[i]` with `i` out of bounds panics in Rust
(modelled as `DeError.panicked`); because the write precedes the
`i == repr_len` test, the completion branch is unreachable — it is kept here
in source order. -/
def vecDecodeLoop2 (codec : Codec F) (fields : Nat) :
    List Nat → List Nat → Nat → List F → Except DeError (List F)
  | [], _, _, values =>
    if values.length ≠ fields then .error .invalidLength else .ok values
  | b :: rest, repr, i, values =>
    if i < codec.byteLen then
      let repr' := repr.set i b
      if i = codec.byteLen then
        match codec.fromRepr repr' with
        | none => .error .invalidValue
        | some pt =>
          let values' := values ++ [pt]
          if values'.length = fields then .ok values'
          else vecDecodeLoop2 codec fields rest repr' 1 values'
      else vecDecodeLoop2 codec fields rest repr' (i + 1) values
    else .error .panicked

/-- The binary branch of the `visit_seq` of `deserialize_field_vec` /
`deserialize_group_vec` (`src/standard.rs` lines 182-221 and 255-294): read
the prefix buffer (see `vecDecodeLoop1`), peek and parse the varint element
count, seed `repr` with the unconsumed tail of the prefix buffer
(`r[..i].copy_from_slice(&buffer[bytes_cnt_size..])`, which panics when the
representation is shorter than `MAX_BYTES - bytes_cnt_size`), then read
elements (see `vecDecodeLoop2`). The serde binary sequence is embedded as
the list of bytes it yields. -/
def deserialize_vec_binary (codec : Codec F) (input : List Nat) :
    Except DeError (List F) :=
  let p := vecDecodeLoop1 input (List.replicate uintMaxBytes 0) 0
  match uintPeek p.1 with
  | none => .error .invalidValue
  | some cntSize =>
    match uintFromBytes (p.1.take cntSize) with
    | none => .error .invalidValue
    | some fields =>
      let i := uintMaxBytes - cntSize
      if i ≤ codec.byteLen then
        let repr := p.1.drop cntSize ++ List.replicate (codec.byteLen - i) 0
        vecDecodeLoop2 codec fields p.2 repr i []
      else .error .panicked

/-- Lowercase hex digit of a nibble (the external `hex` crate's alphabet). -/
def hexDigit (n : Nat) : Char :=
  if n < 10 then Char.ofNat (48 + n) else Char.ofNat (87 + n)

/-- Modelled from the external `hex` crate: `hex::encode`, two lowercase
digits per byte, no separators (spec section 4.G, hex form). -/
def hexEncode (bytes : List Nat) : List Char :=
  bytes.foldr (fun b acc => hexDigit (b / 16) :: hexDigit (b % 16) :: acc) []

/-- Value of one hex digit, upper or lower case. -/
def hexDigitVal (c : Char) : Option Nat :=
  if 48 ≤ c.toNat ∧ c.toNat ≤ 57 then some (c.toNat - 48)
  else if 97 ≤ c.toNat ∧ c.toNat ≤ 102 then some (c.toNat - 87)
  else if 65 ≤ c.toNat ∧ c.toNat ≤ 70 then some (c.toNat - 55)
  else none

/-- Modelled from the external `hex` crate: `hex::decode`, failing on odd
length or a non-hex digit. -/
def hexDecode : List Char → Option (List Nat)
  | [] => some []
  | [_] => none
  | c1 :: c2 :: rest =>
    match hexDigitVal c1, hexDigitVal c2, hexDecode rest with
    | some hi, some lo, some bs => some ((16 * hi + lo) :: bs)
    | _, _, _ => none

/-- The human-readable branch of `serialize_field_vec` /
`serialize_group_vec` (`src/standard.rs` lines 38-42 and 59-63): each
element is serialized as the lowercase hex string of its canonical bytes.
The serde human-readable sequence is embedded as the list of its elements;
an entry is `some s` for a string and `none` for a null. -/
def serialize_vec_hex (codec : Codec F) (f : List F) :
    List (Option (List Char)) :=
  f.map (fun x => some (hexEncode (codec.toRepr x)))

/-- The human-readable branch of the `visit_seq` of `deserialize_field_vec`
/ `deserialize_group_vec` (`src/standard.rs` lines 176-181 and 249-254),
translated faithfully: `seq.next_element()` is typed at `Option<String>`,
and its `None` at the end of the sequence is turned into an
`invalid_length` error by `ok_or`; only a null element (`Some(None)`) ends
the `while let` cleanly. A hex-decoding failure is mapped to
`invalid_length`, a non-canonical element to `invalid_value`. -/
def deserialize_vec_hex_aux (codec : Codec F) :
    List (Option (List Char)) → List F → Except DeError (List F)
  | [], _ => .error .invalidLength
  | none :: _, values => .ok values
  | some s :: rest, values =>
    match hexDecode s with
    | none => .error .invalidLength
    | some bytes =>
      match codec.fromRepr bytes with
      | none => .error .invalidValue
      | some x => deserialize_vec_hex_aux codec rest (values ++ [x])

/-- Entry point of the human-readable vector deserializer. -/
def deserialize_vec_hex (codec : Codec F) (input : List (Option (List Char))) :
    Except DeError (List F) :=
  deserialize_vec_hex_aux codec input []

/-- The human-readable serde form of a `FeldmanVerifier`
(`src/no_std/verifier/feldman.rs` lines 16-26, derived `Serialize`): the
`generator` field through `serialize_group` (a hex string,
`src/standard.rs` lines 30-33 and 77-89) and the `commitments` field
through `serialize_group_vec`. -/
def serialize_feldman_verifier_hex (codec : Codec G) (v : FeldmanVerifier G) :
    List Char × List (Option (List Char)) :=
  (hexEncode (codec.toRepr v.generator), serialize_vec_hex codec v.commitments)

/-- The human-readable serde decoding of a `FeldmanVerifier` (derived
`Deserialize` with `deserialize_group` for `generator`,
`src/standard.rs` lines 126-159, and `deserialize_group_vec` for
`commitments`): field-wise decoding, propagating the first error. -/
def deserialize_feldman_verifier_hex (codec : Codec G)
    (p : List Char × List (Option (List Char))) :
    Except DeError (FeldmanVerifier G) :=
  match hexDecode p.1 with
  | none => .error .invalidValue
  | some bytes =>
    match codec.fromRepr bytes with
    | none => .error .custom
    | some g => (deserialize_vec_hex codec p.2).map (fun cs => ⟨g, cs⟩)

end SerializationDefs

section ConcreteBackend

/-- Little-endian byte encoding of a natural number, padded to `k` bytes. -/
def leEncode : Nat → Nat → List Nat
  | 0, _ => []
  | k + 1, v => v % 256 :: leEncode k (v / 256)

/-- Little-endian byte decoding. -/
def leDecode : List Nat → Nat
  | [] => 0
  | b :: rest => b + 256 * leDecode rest

/-- A concrete backend field codec for evaluation: `ZMod 5` with a 32-byte
little-endian canonical encoding; decoding rejects a wrong length or a
non-canonical value (one not reduced modulo 5). -/
def codec5 : Codec (ZMod 5) where
  byteLen := 32
  toRepr x := leEncode 32 x.val
  fromRepr b :=
    if b.length = 32 ∧ leDecode b < 5 then some ((leDecode b : Nat) : ZMod 5)
    else none
  round_trip := by decide

/-- A concrete deterministic stream for evaluation, standing in for the
seeded ChaCha stream: draw `k` from a given seed is `seed[0] + k + 1`. -/
def chachaEx (seed : List Nat) (k : Nat) : ZMod 5 :=
  ((seed.headD 0 + k + 1 : Nat) : ZMod 5)

/-- A concrete external RNG byte stream. -/
def rngA (i : Nat) : Nat := i % 7

/-- A second RNG stream agreeing with `rngA` on the first 32 bytes only. -/
def rngB (i : Nat) : Nat := if i < 32 then i % 7 else 99

/-- The all-zero RNG stream. -/
def rng0 (_ : Nat) : Nat := 0

/-- A concrete dealer run: `T = 2`, `N = 3`, secret `3`, everything else
defaulted, over the `ZMod 5` backend with canonical generator `1`. -/
def exSplitA : Except VsssError (PedersenResult (ZMod 5) (ZMod 5)) :=
  split_secret 2 3 codec5 1 chachaEx 3 none none none rngA

/-- The bundle produced by `exSplitA`. -/
def resEx : PedersenResult (ZMod 5) (ZMod 5) :=
  exSplitA.toOption.getD ⟨0, [], [], ⟨0, [], ⟨0, []⟩⟩⟩

end ConcreteBackend

section AlgebraLemmas

variable {F G : Type} [CommRing F] [AddCommGroup G] [Module F G]

theorem feldmanRhsAux_eq (x : F) (cs : List G) (i : F) (rhs : G) :
    feldmanRhsAux x cs i rhs = rhs + i • (x • groupPolyEval x cs) := by
  induction cs generalizing i rhs with
  | nil => simp [feldmanRhsAux, groupPolyEval]
  | cons c cs ih =>
    rw [feldmanRhsAux, ih]
    simp only [groupPolyEval, smul_add, mul_smul]
    rw [add_assoc]

theorem groupPolyEval_map_smul (x : F) (g : G) (coeffs : List F) :
    groupPolyEval x (coeffs.map (fun a => a • g)) = evalPoly x coeffs • g := by
  induction coeffs with
  | nil => simp [groupPolyEval, evalPoly]
  | cons a as ih =>
    simp only [List.map_cons, groupPolyEval, evalPoly, ih, add_smul, mul_smul]

theorem groupPolyEval_zipWith (x : F) (g h : G) (p q : List F)
    (hlen : p.length = q.length) :
    groupPolyEval x (List.zipWith (fun a b => a • g + b • h) p q)
      = evalPoly x p • g + evalPoly x q • h := by
  induction p generalizing q with
  | nil =>
    cases q with
    | nil => simp [groupPolyEval, evalPoly]
    | cons b bs => simp at hlen
  | cons a as ih =>
    cases q with
    | nil => simp at hlen
    | cons b bs =>
      simp only [List.length_cons, Nat.succ.injEq] at hlen
      simp only [List.zipWith_cons_cons, groupPolyEval, evalPoly, ih bs hlen,
        add_smul, mul_smul, smul_add]
      abel

theorem getD_range_map {α : Type} (f : Nat → α) (N k : Nat) (hk : k < N)
    (d : α) : ((List.range N).map f).getD k d = f k := by
  rw [List.getD_eq_getElem?_getD, List.getElem?_map, List.getElem?_range hk]
  rfl

end AlgebraLemmas

section VerifyLemmas

variable {F G : Type} [CommRing F] [AddCommGroup G] [Module F G] [DecidableEq G]

theorem feldman_verify_eval (codec : Codec F) (g : G) (a : F) (as : List F)
    (m : Nat) :
    FeldmanVerifier.verify codec
      ⟨g, (a :: as).map (fun c => c • g)⟩
      ⟨m, codec.toRepr (evalPoly (m : F) (a :: as))⟩ = true := by
  have hdec := codec.round_trip (evalPoly (m : F) (a :: as))
  simp only [FeldmanVerifier.verify, hdec, List.map_cons, feldmanRhsAux_eq,
    one_smul, groupPolyEval_map_smul, decide_eq_true_eq]
  simp only [evalPoly, smul_neg, add_smul, mul_smul]
  abel

theorem pedersen_verify_eval (codec : Codec F) (g h : G)
    (fcomm : List G) (p q : List F) (hlen : p.length = q.length) (m : Nat) :
    PedersenVerifier.verify codec
      ⟨h, List.zipWith (fun a b => a • g + b • h) p q, ⟨g, fcomm⟩⟩
      ⟨m, codec.toRepr (evalPoly (m : F) p)⟩
      ⟨m, codec.toRepr (evalPoly (m : F) q)⟩ = true := by
  have hp := codec.round_trip (evalPoly (m : F) p)
  have hq := codec.round_trip (evalPoly (m : F) q)
  simp only [PedersenVerifier.verify, hp, hq, if_pos rfl, decide_eq_true_eq]
  rw [groupPolyEval_zipWith (m : F) g h p q hlen]
  simp

end VerifyLemmas

section DealerLemmas

variable {F G : Type} [CommRing F] [AddCommGroup G] [Module F G]

theorem sharesOf_getD (N : Nat) (codec : Codec F) (coeffs : List F)
    (k : Nat) (hk : k < N) (d : Share) :
    (sharesOf N codec coeffs).getD k d
      = ⟨k + 1, codec.toRepr (evalPoly ((k + 1 : Nat) : F) coeffs)⟩ :=
  getD_range_map _ N k hk d

theorem split_secret_ok (T N : Nat) (codec : Codec F) (gen : G)
    (chacha : List Nat → Nat → F) (secret : F) (blinding : Option F)
    (sg bg : Option G) (rng : Nat → Nat) (res : PedersenResult F G)
    (hres : split_secret T N codec gen chacha secret blinding sg bg rng
      = .ok res) :
    res =
      { blinding := blindingOf chacha blinding rng
        blind_shares := sharesOf N codec (qCoeffsOf T chacha blinding rng)
        secret_shares :=
          sharesOf N codec (pCoeffsOf T chacha blinding rng secret)
        verifier :=
          { generator := bg.getD (tOf chacha rng • gen)
            commitments :=
              List.zipWith
                (fun a b => a • sg.getD gen + b • bg.getD (tOf chacha rng • gen))
                (pCoeffsOf T chacha blinding rng secret)
                (qCoeffsOf T chacha blinding rng)
            feldman_verifier :=
              { generator := sg.getD gen
                commitments :=
                  (pCoeffsOf T chacha blinding rng secret).map
                    (fun a => a • sg.getD gen) } } } := by
  unfold split_secret at hres
  cases hcp : check_params T N codec.byteLen with
  | error e => rw [hcp] at hres; exact Except.noConfusion hres
  | ok u => rw [hcp] at hres; exact (Except.ok.inj hres).symm

theorem split_secret_ok_params (T N : Nat) (codec : Codec F) (gen : G)
    (chacha : List Nat → Nat → F) (secret : F) (blinding : Option F)
    (sg bg : Option G) (rng : Nat → Nat) (res : PedersenResult F G)
    (hres : split_secret T N codec gen chacha secret blinding sg bg rng
      = .ok res) :
    2 ≤ T ∧ T ≤ N ∧ N ≤ 255 ∧ codec.byteLen ≠ 0 := by
  unfold split_secret at hres
  cases hcp : check_params T N codec.byteLen with
  | error e => rw [hcp] at hres; exact Except.noConfusion hres
  | ok u =>
    unfold check_params at hcp
    by_cases hbad : T < 2 ∨ N < T ∨ 255 < N ∨ codec.byteLen = 0
    · rw [if_pos hbad] at hcp; exact Except.noConfusion hcp
    · push_neg at hbad
      exact ⟨hbad.1, hbad.2.1, hbad.2.2.1, hbad.2.2.2⟩

end DealerLemmas

theorem polyCoeffs_length_eq {F : Type} (T : Nat) (chacha : List Nat → Nat → F)
    (rng : Nat → Nat) (k1 k2 : Nat) (s1 s2 : F) :
    (polyCoeffs T chacha rng k1 s1).length
      = (polyCoeffs T chacha rng k2 s2).length := by
  simp [polyCoeffs]

section ClaimTheoremsVerify

variable {F G : Type} [CommRing F] [AddCommGroup G] [Module F G] [DecidableEq G]

/-- C2: `FeldmanVerifier::verify`, for every verifier whose commitment list
is `c_0 :: rest` and every share whose value decodes to a field element `y`,
with `x` the field lift of the identifier byte, computes
`rhs = c_0 + Σ_{i=1}^{T−1} c_i · x^i` and `lhs = (−g) · y`, and returns
`true` if and only if `lhs + rhs` is the group identity. -/
theorem feldman_verify_characterisation (codec : Codec F)
    (v : FeldmanVerifier G) (share : Share) (y : F) (c0 : G) (rest : List G)
    (hy : codec.fromRepr share.value = some y)
    (hc : v.commitments = c0 :: rest) :
    (FeldmanVerifier.verify codec v share = true ↔
      y • (-v.generator)
        + groupPolyEval ((share.identifier : F)) (c0 :: rest) = 0) := by
  simp only [FeldmanVerifier.verify, hy, hc, feldmanRhsAux_eq, one_smul,
    decide_eq_true_eq, groupPolyEval]

/-- C2 witness: the characterisation evaluated on a concrete verifier and
share over the `ZMod 5` backend. -/
theorem feldman_verify_characterisation_witness :
    (FeldmanVerifier.verify codec5
        (⟨2, [3, 4]⟩ : FeldmanVerifier (ZMod 5)) ⟨2, codec5.toRepr 1⟩ = true ↔
      (1 : ZMod 5) • (-(2 : ZMod 5))
        + groupPolyEval ((2 : Nat) : ZMod 5) ([3, 4] : List (ZMod 5)) = 0) :=
  feldman_verify_characterisation codec5
    (⟨2, [3, 4]⟩ : FeldmanVerifier (ZMod 5)) ⟨2, codec5.toRepr 1⟩ 1 3 [4]
    (codec5.round_trip 1) rfl

/-- C8: for every verifier and every share whose value bytes are not a
canonical field-element encoding, `FeldmanVerifier::verify` returns `false`
(a boolean rejection, not an error and not a panic): the decode check
precedes any commitment access. -/
theorem feldman_verify_bad_encoding_false (codec : Codec F)
    (v : FeldmanVerifier G) (share : Share)
    (hbad : codec.fromRepr share.value = none) :
    FeldmanVerifier.verify codec v share = false := by
  simp only [FeldmanVerifier.verify, hbad]

/-- C8 witness: an empty value payload is not a canonical encoding and is
rejected with `false`. -/
theorem feldman_verify_bad_encoding_false_witness :
    FeldmanVerifier.verify codec5
      (⟨1, [2]⟩ : FeldmanVerifier (ZMod 5)) ⟨1, []⟩ = false :=
  feldman_verify_bad_encoding_false codec5
    (⟨1, [2]⟩ : FeldmanVerifier (ZMod 5)) ⟨1, []⟩ rfl

/-- C10: `FeldmanVerifier::verify` imposes no non-zero check on the share
identifier: for every verifier with commitments `c_0 :: rest` and every
share with identifier `0` whose value decodes to `y`, it returns `true` if
and only if `y • g = c_0` — so a container carrying the reserved identifier
`0` and the canonical encoding of the secret itself is accepted. -/
theorem feldman_verify_identifier_zero (codec : Codec F)
    (v : FeldmanVerifier G) (share : Share) (y : F) (c0 : G) (rest : List G)
    (hy : codec.fromRepr share.value = some y)
    (hid : share.identifier = 0)
    (hc : v.commitments = c0 :: rest) :
    (FeldmanVerifier.verify codec v share = true ↔ y • v.generator = c0) := by
  simp only [FeldmanVerifier.verify, hy, hc, feldmanRhsAux_eq, one_smul,
    decide_eq_true_eq, hid, Nat.cast_zero, zero_smul, smul_zero, add_zero,
    smul_neg]
  exact neg_add_eq_zero

/-- C10 witness: the Feldman verifier emitted by a concrete dealer run
accepts the container with identifier `0` and the canonical encoding of the
secret `3` itself. -/
theorem feldman_verify_identifier_zero_witness :
    (FeldmanVerifier.verify codec5 resEx.verifier.feldman_verifier
        ⟨0, codec5.toRepr 3⟩ = true ↔
      (3 : ZMod 5) • resEx.verifier.feldman_verifier.generator = 3) ∧
    FeldmanVerifier.verify codec5 resEx.verifier.feldman_verifier
        ⟨0, codec5.toRepr 3⟩ = true := by
  have h := feldman_verify_identifier_zero codec5
    resEx.verifier.feldman_verifier ⟨0, codec5.toRepr 3⟩ 3 3 [3]
    (codec5.round_trip 3) rfl rfl
  exact ⟨h, h.mpr (by decide)⟩

end ClaimTheoremsVerify

section ClaimTheoremsDealer

variable {F G : Type} [CommRing F] [AddCommGroup G] [Module F G] [DecidableEq G]

omit [DecidableEq G] in
/-- C9: after parameter validation, `split_secret` reads exactly 32 bytes
from the caller-supplied RNG as the seed of the deterministic stream, and
all subsequent randomness comes from that stream; consequently two calls
with identical arguments whose RNGs agree on those 32 bytes produce
identical results. -/
theorem split_secret_deterministic_in_seed (T N : Nat) (codec : Codec F)
    (gen : G) (chacha : List Nat → Nat → F) (secret : F)
    (blinding : Option F) (sg bg : Option G) (r1 r2 : Nat → Nat)
    (h32 : ∀ i, i < 32 → r1 i = r2 i) :
    split_secret T N codec gen chacha secret blinding sg bg r1
      = split_secret T N codec gen chacha secret blinding sg bg r2 := by
  have hseed : seedOf r1 = seedOf r2 := by
    unfold seedOf
    apply List.map_congr_left
    intro a ha
    exact h32 a (List.mem_range.mp ha)
  simp only [split_secret, tOf, blindingOf, pCoeffsOf, qCoeffsOf, polyCoeffs,
    hseed]

/-- C9 witness: two RNG streams that agree on bytes 0..31 and differ beyond
produce the same dealer output. -/
theorem split_secret_deterministic_in_seed_witness :
    split_secret 2 3 codec5 (1 : ZMod 5) chachaEx 3 none none none rngA
      = split_secret 2 3 codec5 (1 : ZMod 5) chachaEx 3 none none none rngB :=
  split_secret_deterministic_in_seed 2 3 codec5 (1 : ZMod 5) chachaEx 3 none
    none none rngA rngB (by decide)

/-- C3 counterexample: over the `ZMod 5` backend with canonical generator
`1` and a supplied share generator `g = 2`, a successful `split_secret` run
with no blind-factor generator emits `h = G::generator() * t = 1`, while
the claim's `g · t` equals `2`: the claim is false for a non-default share
generator, because line 135 of `src/no_std/pedersen.rs` scales the
canonical generator, not `g`. -/
theorem blinding_generator_counterexample :
    (split_secret 2 3 codec5 (1 : ZMod 5) chachaEx 3 none (some 2) none
        rng0).map (fun r => r.verifier.generator) = .ok 1
    ∧ tOf chachaEx rng0 • (2 : ZMod 5) = 2
    ∧ (1 : ZMod 5) ≠ 2 :=
  ⟨rfl, rfl, by decide⟩

omit [DecidableEq G] in
/-- C3 amended: when `blind_factor_generator` is absent, the blinding
generator `h` of every successful `split_secret` equals the canonical
generator of `G` scaled by the fresh stream scalar `t` — so `h = g·t` holds
when `share_generator` is absent (then `g` is the canonical generator), but
a supplied share generator is not used to form `h`. -/
theorem blinding_generator_from_canonical (T N : Nat) (codec : Codec F)
    (gen : G) (chacha : List Nat → Nat → F) (secret : F)
    (blinding : Option F) (sg : Option G) (rng : Nat → Nat)
    (res : PedersenResult F G)
    (hres : split_secret T N codec gen chacha secret blinding sg none rng
      = .ok res) :
    res.verifier.generator = tOf chacha rng • gen := by
  have hOk := split_secret_ok T N codec gen chacha secret blinding sg none
    rng res hres
  rw [hOk]
  rfl

/-- C3 amended witness: the emitted blinding generator of a concrete run
equals the canonical generator scaled by the first stream draw. -/
theorem blinding_generator_from_canonical_witness :
    resEx.verifier.generator = tOf chachaEx rngA • (1 : ZMod 5) :=
  blinding_generator_from_canonical 2 3 codec5 (1 : ZMod 5) chachaEx 3 none
    none rngA resEx rfl

/-- C1: for every valid parameterisation and every successful result of
`Pedersen::split_secret`, the embedded Feldman verifier accepts every
emitted secret share, and the Pedersen verifier accepts every
`(secret_shares[k], blind_shares[k])` pair. -/
theorem pedersen_split_all_shares_verify (T N : Nat) (codec : Codec F)
    (gen : G) (chacha : List Nat → Nat → F) (secret : F)
    (blinding : Option F) (sg bg : Option G) (rng : Nat → Nat)
    (res : PedersenResult F G) (_h2 : 2 ≤ T) (_hTN : T ≤ N) (_h255 : N ≤ 255)
    (hres : split_secret T N codec gen chacha secret blinding sg bg rng
      = .ok res) :
    ∀ k, k < N →
      FeldmanVerifier.verify codec res.verifier.feldman_verifier
        (res.secret_shares.getD k ⟨0, []⟩) = true ∧
      PedersenVerifier.verify codec res.verifier
        (res.secret_shares.getD k ⟨0, []⟩)
        (res.blind_shares.getD k ⟨0, []⟩) = true := by
  intro k hk
  have hOk := split_secret_ok T N codec gen chacha secret blinding sg bg
    rng res hres
  have hsec : res.secret_shares
      = sharesOf N codec (pCoeffsOf T chacha blinding rng secret) := by
    rw [hOk]
  have hbl : res.blind_shares
      = sharesOf N codec (qCoeffsOf T chacha blinding rng) := by
    rw [hOk]
  have hfv : res.verifier.feldman_verifier
      = ⟨sg.getD gen, (pCoeffsOf T chacha blinding rng secret).map
          (fun a => a • sg.getD gen)⟩ := by
    rw [hOk]
  have hv : res.verifier
      = ⟨bg.getD (tOf chacha rng • gen),
         List.zipWith
           (fun a b => a • sg.getD gen + b • bg.getD (tOf chacha rng • gen))
           (pCoeffsOf T chacha blinding rng secret)
           (qCoeffsOf T chacha blinding rng),
         ⟨sg.getD gen, (pCoeffsOf T chacha blinding rng secret).map
           (fun a => a • sg.getD gen)⟩⟩ := by
    rw [hOk]
  have hlen : (pCoeffsOf T chacha blinding rng secret).length
      = (qCoeffsOf T chacha blinding rng).length :=
    polyCoeffs_length_eq T chacha rng _ _ _ _
  constructor
  · rw [hfv, hsec, sharesOf_getD N codec _ k hk]
    simp only [pCoeffsOf, polyCoeffs]
    exact feldman_verify_eval codec (sg.getD gen) secret _ (k + 1)
  · rw [hv, hsec, hbl, sharesOf_getD N codec _ k hk,
      sharesOf_getD N codec _ k hk]
    exact pedersen_verify_eval codec (sg.getD gen)
      (bg.getD (tOf chacha rng • gen)) _ _ _ hlen (k + 1)

/-- C1 witness: in a concrete dealer run with `T = 2`, `N = 3`, the second
secret share passes the Feldman check and the second share pair passes the
Pedersen check. -/
theorem pedersen_split_all_shares_verify_witness :
    FeldmanVerifier.verify codec5 resEx.verifier.feldman_verifier
        (resEx.secret_shares.getD 1 ⟨0, []⟩) = true ∧
    PedersenVerifier.verify codec5 resEx.verifier
        (resEx.secret_shares.getD 1 ⟨0, []⟩)
        (resEx.blind_shares.getD 1 ⟨0, []⟩) = true :=
  pedersen_split_all_shares_verify 2 3 codec5 (1 : ZMod 5) chachaEx 3 none
    none none rngA resEx (by decide) (by decide) (by decide) rfl 1 (by decide)

omit [DecidableEq G] in
/-- C4: every successful `split_secret` output satisfies
`feldman_commitments[i] = g · P.a_i` and
`pedersen_commitments[i] = feldman_commitments[i] + h · Q.a_i` for all
`i < T`, hence `c_0 = g·secret` and `p_0 = g·secret + h·blinding`, and both
share arrays carry identifier `k + 1` at position `k`. -/
theorem pedersen_split_commitment_invariants (T N : Nat) (codec : Codec F)
    (gen : G) (chacha : List Nat → Nat → F) (secret : F)
    (blinding : Option F) (sg bg : Option G) (rng : Nat → Nat)
    (res : PedersenResult F G)
    (hres : split_secret T N codec gen chacha secret blinding sg bg rng
      = .ok res) :
    res.verifier.feldman_verifier.commitments
        = (pCoeffsOf T chacha blinding rng secret).map
            (fun a => a • sg.getD gen)
    ∧ res.verifier.commitments
        = List.zipWith (fun c b => c + b • res.verifier.generator)
            res.verifier.feldman_verifier.commitments
            (qCoeffsOf T chacha blinding rng)
    ∧ res.verifier.feldman_verifier.commitments.head?
        = some (secret • sg.getD gen)
    ∧ res.verifier.commitments.head?
        = some (secret • sg.getD gen + res.blinding • res.verifier.generator)
    ∧ res.verifier.feldman_verifier.commitments.length = T
    ∧ res.verifier.commitments.length = T
    ∧ res.secret_shares.map Share.identifier
        = (List.range N).map (fun k => k + 1)
    ∧ res.blind_shares.map Share.identifier
        = (List.range N).map (fun k => k + 1) := by
  have hOk := split_secret_ok T N codec gen chacha secret blinding sg bg
    rng res hres
  have hT := (split_secret_ok_params T N codec gen chacha secret blinding
    sg bg rng res hres).1
  subst hOk
  refine ⟨rfl, ?_, ?_, ?_, ?_, ?_, ?_, ?_⟩
  · simp only [List.zipWith_map_left]
  · simp [pCoeffsOf, polyCoeffs]
  · simp [pCoeffsOf, qCoeffsOf, polyCoeffs]
  · simp only [List.length_map, pCoeffsOf, polyCoeffs, List.length_cons,
      List.length_range]
    omega
  · simp only [List.length_zipWith, List.length_map, pCoeffsOf, qCoeffsOf,
      polyCoeffs, List.length_cons, List.length_range]
    omega
  · simp [sharesOf, List.map_map, Function.comp]
  · simp [sharesOf, List.map_map, Function.comp]

/-- C4 witness: the leading Feldman commitment of a concrete run is
`g · secret`. -/
theorem pedersen_split_commitment_invariants_witness :
    resEx.verifier.feldman_verifier.commitments.head? = some (3 : ZMod 5) :=
  (pedersen_split_commitment_invariants 2 3 codec5 (1 : ZMod 5) chachaEx 3
    none none none rngA resEx rfl).2.2.1

end ClaimTheoremsDealer

section ClaimTheoremsSerialization

/-- C6 (code bug): the binary serializer does not emit the claimed
varint-prefixed payload. On the vector `[3]` over the `ZMod 5` backend with
a bincode-style eight-byte little-endian sequence header, the serializer
emits only the sequence header — the buffer holding the claimed
prefix-plus-payload bytes (`vecWireFormat`) is built and dropped
(`src/standard.rs` lines 43-51 and 64-72), so the emitted bytes differ from
the claimed encoding. -/
theorem serialize_vec_binary_drops_payload :
    serialize_vec_binary codec5 (fun n => leEncode 8 n) [(3 : ZMod 5)]
        = leEncode 8 1
    ∧ vecWireFormat codec5 [(3 : ZMod 5)] = 1 :: codec5.toRepr 3
    ∧ serialize_vec_binary codec5 (fun n => leEncode 8 n) [(3 : ZMod 5)]
        ≠ vecWireFormat codec5 [(3 : ZMod 5)] :=
  ⟨rfl, rfl, by decide⟩

/-- C7 (code bug): the binary vector decoder silently succeeds on malformed
input instead of failing. `[2, 0]` declares a non-zero element count with a
one-byte payload, yet decodes to `ok []`; the empty input, whose length
prefix cannot be parsed, also decodes to `ok []`; and even the well-formed
encoding of `[3]` decodes to `ok []` — because the prefix-reading loop
(`src/standard.rs` lines 185-190) never advances its index, consumes the
whole sequence into `buffer[0]`, and leaves the element count equal to the
last input byte. -/
theorem deserialize_vec_binary_silent_success :
    deserialize_vec_binary codec5 [2, 0] = .ok []
    ∧ deserialize_vec_binary codec5 ([] : List Nat) = .ok []
    ∧ deserialize_vec_binary codec5 (uintToVec 1 ++ codec5.toRepr 3)
        = .ok [] :=
  ⟨rfl, rfl, rfl⟩

/-- C5 (code bug): serialization does not round-trip. The hex
(human-readable) deserialization of a serialized `FeldmanVerifier` fails
with `invalid_length` instead of returning the original value, because the
human-readable vector decoder (`src/standard.rs` lines 176-181 and 249-254)
reads elements at `Option<String>` and turns the end of the sequence into
an error; the binary form cannot round-trip either, since the serializer
drops the element payload entirely. -/
theorem feldman_verifier_hex_round_trip_fails :
    deserialize_feldman_verifier_hex codec5
        (serialize_feldman_verifier_hex codec5
          (⟨1, [3, 2]⟩ : FeldmanVerifier (ZMod 5)))
      = .error DeError.invalidLength :=
  rfl

end ClaimTheoremsSerialization

end Vsss
